import Mathlib

/-!
Shallow embedding of the sandboxed file-serving and upload-moderation core of
the Local-Media-Server repository (src/utils.py, src/server.py, src/app.py).

Paths handed to the HTTP layer are modelled as Lean `String`s (mirroring the
Python code, which manipulates `str(path)`), while the filesystem-state model
for the moderation operations uses lists of path segments.  All string
manipulation is implemented over `String.data` with structural recursion so
that every definition is executable by the kernel.

Python's `st_mtime` (a float) is modelled as a `Nat`; file bytes are `Nat`s.
The regex `\d` is modelled as ASCII digits.  Presentation-only fields produced
by float formatting (`size_human`, `mtime_str`) are omitted from the records.
-/

/-- HTTP-level error outcomes used by the path sandbox
(`BadRequest` = 400, `NotFound` = 404). -/
inductive HttpErr where
  | badRequest
  | notFound
deriving DecidableEq, Repr

/-- Python `str.strip()` on both ends (whitespace). -/
def trimChars (cs : List Char) : List Char :=
  ((cs.dropWhile Char.isWhitespace).reverse.dropWhile Char.isWhitespace).reverse

/-- `rel.strip().replace("\\", "/")` — the input normalization of `safe_rel_path`. -/
def pyNormRel (s : String) : String :=
  ⟨(trimChars s.data).map (fun c => if c = '\\' then '/' else c)⟩

/-- Split a character list on `'/'`, keeping empty pieces
(Python `"a//b".split("/") = ['a', '', 'b']`). -/
def splitSlash : List Char → List (List Char)
  | [] => [[]]
  | c :: rest =>
    match splitSlash rest with
    | [] => [[]]
    | cur :: parts => if c = '/' then [] :: cur :: parts else (c :: cur) :: parts

/-- The logical segments of a (already normalized) path string: what
`pathlib.PurePosixPath(s).parts` yields apart from a root marker — empty and
`"."` pieces are dropped, `".."` is kept. -/
def logicalSegs (s : String) : List String :=
  ((splitSlash s.data).map (fun cs => (⟨cs⟩ : String))).filter
    (fun t => ¬ (t = "" ∨ t = "."))

/-- The result of `safe_rel_path`: a parsed `pathlib.Path` value — a root
marker plus the logical segments. -/
structure RelPath where
  absolute : Bool
  segs : List String
deriving DecidableEq, Repr

/-- `utils.safe_rel_path` / `app.safe_rel_path` (identical code in both
layers): strip and normalize the client string, special-case `""`, `"."`,
`"/"` to the root, and reject with a 400 when any logical segment is a
literal `".."`. -/
def safe_rel_path (rel : String) : Except HttpErr RelPath :=
  let r := pyNormRel rel
  if r = "" ∨ r = "." ∨ r = "/" then .ok ⟨false, []⟩
  else
    let segs := logicalSegs r
    if ".." ∈ segs then .error .badRequest
    else .ok ⟨r.data.head? = some '/', segs⟩

/-- Python `str.startswith` (a plain character-prefix test). -/
def pyStartsWith (s pre : String) : Bool :=
  pre.data.isPrefixOf s.data

/-- Real path containment: `full` denotes a location inside (or equal to) the
directory `root`, as paths rather than raw strings. -/
def strUnder (full root : String) : Prop :=
  full = root ∨ pyStartsWith full (root ++ "/") = true

instance (full root : String) : Decidable (strUnder full root) := by
  unfold strUnder; infer_instance

/-- `utils.get_file_safe` (and `app.get_file_safe`): parse the client path,
canonicalize the joined candidate (the filesystem-dependent
`(base / rel).resolve()` step is the oracle `resolve`), then (1) require
`str(full).startswith(str(base))`, else 400, and (2) reject with a 404 when
`str(full).startswith(str(pending_dir))`.  `base` and `pendingDir` are the
already-resolved strings of the content root and the pending root. -/
def get_file_safe (base pendingDir : String) (resolve : RelPath → String)
    (rel : String) : Except HttpErr String :=
  match safe_rel_path rel with
  | .error e => .error e
  | .ok p =>
    let full := resolve p
    if ¬ pyStartsWith full base then .error .badRequest
    else if pyStartsWith full pendingDir then .error .notFound
    else .ok full

/-! ### RangeStreamer: `stream_file` in src/server.py (and identically in
src/app.py) together with `utils.iter_file`. -/

/-- Value of a run of ASCII digits, as `int()` computes it. -/
def digitsVal (ds : List Char) : Nat :=
  ds.foldl (fun a c => 10 * a + (c.toNat - 48)) 0

/-- Consume a literal prefix; `none` when it does not match. -/
def dropLit : List Char → List Char → Option (List Char)
  | [], cs => some cs
  | _ :: _, [] => none
  | l :: ls, c :: cs => if c = l then dropLit ls cs else none

/-- `re.match(r"bytes=(\d+)-(\d*)", header)`: an (unanchored-at-the-end)
prefix match — trailing characters after the second digit group are ignored,
exactly as `re.match` ignores them. -/
def matchRange (cs : List Char) : Option (Nat × Option Nat) :=
  match dropLit "bytes=".data cs with
  | none => none
  | some r1 =>
    let ds := r1.takeWhile Char.isDigit
    if ds.isEmpty then none
    else
      match r1.dropWhile Char.isDigit with
      | '-' :: r3 =>
        let es := r3.takeWhile Char.isDigit
        some (digitsVal ds, if es.isEmpty then none else some (digitsVal es))
      | _ => none

/-- The chunk-producing loop of `utils.iter_file`.  The loop consumes at least
one byte of `rem` per iteration, so running it with `fuel = rem` is exactly
the Python `while remaining > 0` loop; `fuel` only makes the recursion
structural. -/
def iter_file_go (file : List Nat) (csize : Nat) :
    Nat → Nat → Nat → List (List Nat)
  | 0, _, _ => []
  | fuel + 1, pos, rem =>
    if rem = 0 then []
    else
      let chunk := (file.drop pos).take (min csize rem)
      if chunk.length = 0 then []
      else chunk :: iter_file_go file csize fuel (pos + chunk.length) (rem - chunk.length)

/-- `utils.iter_file(path, start, end, chunk_size)`: seek to `start`, then
yield chunks of at most `chunk_size` bytes while `remaining = end - start + 1`
is positive, stopping early at end of file. -/
def iter_file (file : List Nat) (start : Nat) (endv : Int) (csize : Nat) :
    List (List Nat) :=
  iter_file_go file csize (endv - start + 1).toNat start (endv - start + 1).toNat

/-- The observable pieces of the Flask `Response` built by `stream_file`:
status, `Content-Range` (start, end, total), `Accept-Ranges`,
`Content-Length`, and the streamed body chunks. -/
structure StreamResp where
  status : Nat
  contentRange : Option (Nat × Int × Nat)
  acceptRanges : Bool
  contentLength : Option Int
  body : List (List Nat)
deriving DecidableEq, Repr

/-- The no-Range-header (and falsy-header) branch of `stream_file`:
status 200, full body. -/
def stream_full (file : List Nat) : StreamResp :=
  ⟨200, none, true, some (file.length : Int),
    iter_file file 0 ((file.length : Int) - 1) (1024 * 1024)⟩

/-- `stream_file` of src/server.py lines 168–216 (= src/app.py lines
354–398), after the path has been validated: dispatch on the `Range` header.
An empty header string is falsy in Python (`if range_header:`), hence serves
the full file. -/
def stream_file (file : List Nat) (rangeHeader : Option String) : StreamResp :=
  let fileSize := file.length
  match rangeHeader with
  | none => stream_full file
  | some h =>
    if h = "" then stream_full file
    else
      match matchRange h.data with
      | none => ⟨416, none, false, none, []⟩
      | some (start, endOpt) =>
        let endv : Int :=
          match endOpt with
          | some e => (e : Int)
          | none => (fileSize : Int) - 1
        if start ≥ fileSize then ⟨416, none, false, none, []⟩
        else
          let e := min endv ((fileSize : Int) - 1)
          ⟨206, some (start, e, fileSize), true, some (e - (start : Int) + 1),
            iter_file file start e (1024 * 1024)⟩

/-! ### Filesystem model for the moderation operations (approve / reject).

A path is a list of segments below the filesystem root.  The state is a list
of files (path ↦ content) plus a list of directories.  `Path.resolve()` for
dot-segments is modelled by `resolveFrom`; symlinks are not modelled (the
moderation claims do not involve them). -/

/-- A filesystem path as a list of name segments. -/
abbrev SPath := List String

/-- Filesystem state: files with contents, and directories. -/
structure FS where
  files : List (SPath × Nat)
  dirs : List SPath
deriving DecidableEq, Repr

/-- `p.exists() and p.is_file()`. -/
def FS.isFile (fs : FS) (p : SPath) : Bool :=
  fs.files.any (fun e => e.1 = p)

/-- `p.exists()`: a file or a directory lives at `p`. -/
def FS.existsP (fs : FS) (p : SPath) : Bool :=
  fs.isFile p || fs.dirs.any (fun d => d = p)

/-- Every existing path of the state, as one list. -/
def FS.allPaths (fs : FS) : List SPath :=
  fs.files.map (·.1) ++ fs.dirs

/-- `(base / rel).resolve()` restricted to dot-segment processing: `".."`
pops a segment, `"."` is dropped, anything else is appended. -/
def resolveFrom (base : SPath) (segs : List String) : SPath :=
  segs.foldl
    (fun acc s => if s = ".." then acc.dropLast else if s = "." then acc else acc ++ [s])
    base

/-- `reject_file` of src/server.py lines 303–318 (= `reject_pending_file` in
src/app.py): resolve the client path against the pending root with no
validation, then unlink it when it exists and is a regular file. -/
def reject_file (fs : FS) (pendingRoot : SPath) (filename : List String) : FS :=
  let p := resolveFrom pendingRoot filename
  if fs.isFile p then { fs with files := fs.files.filter (fun e => ¬ e.1 = p) }
  else fs

/-- Decimal rendering of a natural number, as Python's `f"{counter}"`
produces it (big-endian base-10 digits). -/
def natStr (n : Nat) : String :=
  if n = 0 then "0"
  else ⟨((Nat.digits 10 n).map (fun d => Char.ofNat (48 + d))).reverse⟩

/-- Inverse reading used only to prove `natStr` injective. -/
def strVal (s : String) : Nat :=
  s.data.foldl (fun a c => 10 * a + (c.toNat - 48)) 0

/-- `pathlib.PurePath.suffix`: the last dot-extension of a name, empty for
names with no interior dot, for hidden names, and for a trailing dot. -/
def pySuffix (nm : String) : String :=
  match (nm.data.reverse.findIdx? (fun c => c = '.')) with
  | none => ""
  | some j =>
    let i := nm.data.length - 1 - j
    if 0 < i ∧ i < nm.data.length - 1 then ⟨nm.data.drop i⟩ else ""

/-- `pathlib.PurePath.stem`: the name with `pySuffix` removed. -/
def pyStem (nm : String) : String :=
  match (nm.data.reverse.findIdx? (fun c => c = '.')) with
  | none => nm
  | some j =>
    let i := nm.data.length - 1 - j
    if 0 < i ∧ i < nm.data.length - 1 then ⟨nm.data.take i⟩ else nm

/-- The collision-avoiding candidate name `f"{stem}_{counter}{suffix}"`. -/
def candName (stem suffix : String) (k : Nat) : String :=
  stem ++ "_" ++ natStr k ++ suffix

/-- The `while dest.exists(): dest = dest.parent / f"{stem}_{counter}{suffix}"`
loop.  The fuel bound is supplied by the caller; with fuel exceeding the
number of existing paths the loop provably terminates with a free name. -/
def findFree (taken : SPath → Bool) (parent : SPath) (stem suffix : String) :
    Nat → Nat → Option SPath
  | 0, _ => none
  | fuel + 1, k =>
    let d := parent ++ [candName stem suffix k]
    if taken d then findFree taken parent stem suffix fuel (k + 1) else some d

/-- Rewrite a path that lives under `src` to live under `dest`. -/
def rewriteUnder (src dest p : SPath) : SPath :=
  if src.isPrefixOf p then dest ++ p.drop src.length else p

/-- `os.replace(src, dest)` (the effect of `Path.replace`): an atomic rename.
A file entry moves to `dest`, overwriting any file there; a directory moves
together with its subtree. -/
def FS.rename (fs : FS) (src dest : SPath) : FS :=
  if fs.isFile src then
    { files := (fs.files.filter (fun e => ¬ e.1 = dest)).map
        (fun e => if e.1 = src then (dest, e.2) else e),
      dirs := fs.dirs }
  else
    { files := fs.files.map (fun e => (rewriteUnder src dest e.1, e.2)),
      dirs := fs.dirs.map (rewriteUnder src dest) }

/-- Internal failure modes of `approve_file` that surface as a 500 in the
source (an escaped path makes `relative_to` raise `ValueError`); the
exhausted-fuel case of the collision loop is proved unreachable. -/
inductive PyErr where
  | valueError
  | permissionError
  | unreachable
deriving DecidableEq, Repr

/-- `approve_file` of src/server.py lines 272–301 (= `approve_pending_file`
in src/app.py lines 198–221): resolve the pending-relative path against the
pending root; a vanished path is a silent no-op; otherwise compute the
destination at the same relative position under the content root, create the
intermediate folders, resolve a destination collision with the numeric-suffix
scheme, and move the file with one atomic rename. -/
def approve_file (fs : FS) (pendingRoot contentRoot : SPath)
    (filename : List String) : Except PyErr FS :=
  let src := resolveFrom pendingRoot filename
  if fs.existsP src = false then .ok fs
  else if pendingRoot.isPrefixOf src then
    let relInside := src.drop pendingRoot.length
    let destBase := contentRoot ++ relInside
    let fs1 : FS :=
      { fs with
        dirs := fs.dirs ++ (List.range destBase.length).map (fun i => destBase.take i) }
    if fs1.existsP destBase = false then .ok (fs1.rename src destBase)
    else
      let nm := destBase.getLastD ""
      match findFree fs1.existsP destBase.dropLast (pyStem nm) (pySuffix nm)
          (fs1.allPaths.length + 1) 1 with
      | some dest => .ok (fs1.rename src dest)
      | none => .error .unreachable
  else .error .valueError

/-! ### DirectoryCatalog: `list_dir` in src/utils.py and in src/app.py, and
the shared `filter_sort_files`. -/

/-- `utils.detect_type`: coarse category from a content type, by prefix. -/
def detect_type (mimetype : Option String) : String :=
  match mimetype with
  | none => "other"
  | some m =>
    if m = "" then "other"
    else if pyStartsWith m "video" then "video"
    else if pyStartsWith m "image" then "image"
    else if pyStartsWith m "audio" then "audio"
    else "other"

/-- Lower-cased character codes of a name: the sort key `p.name.lower()`. -/
def lowerChars (s : String) : List Char :=
  s.data.map Char.toLower

/-- Lexicographic comparison of character lists by code point, the order
Python uses on strings. -/
def lexLe : List Char → List Char → Bool
  | [], _ => true
  | _ :: _, [] => false
  | a :: as, b :: bs =>
    if a.toNat < b.toNat then true
    else if b.toNat < a.toNat then false
    else lexLe as bs

/-- A directory entry as the enumeration sees it.  `permDenied` says that
iterating this entry (for its child count) raises `PermissionError`;
`childCount` is the count when readable. -/
structure MEntry where
  name : String
  rel : String
  isDir : Bool
  permDenied : Bool
  childCount : Nat
  size : Nat
  mtime : Nat
  mimetype : Option String
deriving DecidableEq, Repr

/-- A directory to enumerate; `permDenied` says that iterating the directory
itself raises `PermissionError`. -/
structure MDir where
  permDenied : Bool
  entries : List MEntry
deriving DecidableEq, Repr

/-- A folder row of the listing. -/
structure FolderRec where
  name : String
  relpath : String
  itemsCount : Nat
deriving DecidableEq, Repr

/-- A file row of the listing (the float-formatted presentation fields
`size_human` and `mtime_str` are omitted). -/
structure FileRec where
  name : String
  relpath : String
  size : Nat
  mimetype : String
  ext : String
  isVideo : Bool
  isImage : Bool
  ftype : String
  mtime : Nat
deriving DecidableEq, Repr

/-- `sorted(current_dir.iterdir(), key=lambda p: p.name.lower())` — Python's
sorted() is a stable mergesort. -/
def entLe (a b : MEntry) : Bool :=
  lexLe (lowerChars a.name) (lowerChars b.name)

/-- The folder row produced for one entry by `utils.list_dir`, `none` when
the entry is skipped or is a file: a directory named like the pending root is
skipped, and a `PermissionError` while counting children yields count 0. -/
def folderOf (pendingName : String) (e : MEntry) : Option FolderRec :=
  if e.isDir then
    if e.name = pendingName then none
    else some ⟨e.name, e.rel, if e.permDenied then 0 else e.childCount⟩
  else none

/-- The file row produced for one entry (same in both layers). -/
def fileOf (e : MEntry) : Option FileRec :=
  if e.isDir then none
  else
    let mt := match e.mimetype with | none => "application/octet-stream" | some m => m
    let ft := detect_type (some mt)
    some ⟨e.name, e.rel, e.size, mt, pySuffix e.name, ft = "video", ft = "image", ft, e.mtime⟩

namespace Utils

/-- `utils.list_dir` (src/utils.py lines 109–165): sort entries by
lower-cased name, skip the pending directory, tolerate `PermissionError`
on a child count (count 0) and on the enumeration itself (empty listing). -/
def list_dir (pendingName : String) (d : MDir) : List FolderRec × List FileRec :=
  if d.permDenied then ([], [])
  else
    let sorted := d.entries.mergeSort entLe
    (sorted.filterMap (folderOf pendingName), sorted.filterMap fileOf)

end Utils

namespace App

/-- `app.list_dir` (src/app.py lines 120–156): the same enumeration, but with
no `try/except PermissionError` — a denied child count or a denied
enumeration propagates the exception. -/
def list_dir_go (pendingName : String) :
    List MEntry → Except PyErr (List FolderRec × List FileRec)
  | [] => .ok ([], [])
  | e :: rest =>
    if e.isDir then
      if e.name = pendingName then list_dir_go pendingName rest
      else if e.permDenied then .error .permissionError
      else
        match list_dir_go pendingName rest with
        | .error err => .error err
        | .ok (fo, fi) => .ok (⟨e.name, e.rel, e.childCount⟩ :: fo, fi)
    else
      match list_dir_go pendingName rest with
      | .error err => .error err
      | .ok (fo, fi) =>
        match fileOf e with
        | some r => .ok (fo, r :: fi)
        | none => .ok (fo, fi)

/-- `app.list_dir`: enumeration (which raises on a denied directory) then the
per-entry loop, with no permission tolerance anywhere. -/
def list_dir (pendingName : String) (d : MDir) :
    Except PyErr (List FolderRec × List FileRec) :=
  if d.permDenied then .error .permissionError
  else list_dir_go pendingName (d.entries.mergeSort entLe)

end App

/-- Python substring containment `needle in hay`. -/
def pyContains (needle hay : String) : Bool :=
  (List.range (hay.data.length + 1)).any
    (fun i => needle.data.isPrefixOf (hay.data.drop i))

/-- The filter stage of `filter_sort_files`: substring filter on the name
when `q` is non-empty (Python truthiness), then category filter when
`file_type != "all"`. -/
def applyFilters (files : List FileRec) (q ftype : String) : List FileRec :=
  let f1 :=
    if q = "" then files
    else files.filter (fun f => pyContains ⟨lowerChars q⟩ ⟨lowerChars f.name⟩)
  if ftype = "all" then f1 else f1.filter (fun f => f.ftype = ftype)

/-- The comparator induced by the selected sort key (`files.sort(key=...)`
compares the per-element keys). -/
def fileKeyLe (sortBy : String) (a b : FileRec) : Bool :=
  if sortBy = "size" then a.size ≤ b.size
  else if sortBy = "mtime" then a.mtime ≤ b.mtime
  else lexLe (lowerChars a.name) (lowerChars b.name)

/-- Python `list.sort(key=..., reverse=...)`: a stable mergesort; CPython
implements `reverse=True` by reversing the list before and after an
ascending stable sort, which keeps equal-key runs in original order. -/
def pysort (le : FileRec → FileRec → Bool) (rev : Bool) (l : List FileRec) :
    List FileRec :=
  if rev then (l.reverse.mergeSort le).reverse else l.mergeSort le

/-- `filter_sort_files` (src/utils.py lines 167–185 = src/app.py lines
158–173): filter, then stable-sort by the selected key, descending when
`order == "desc"`. -/
def filter_sort_files (files : List FileRec) (q ftype sortBy ord : String) :
    List FileRec :=
  pysort (fileKeyLe sortBy) (ord = "desc") (applyFilters files q ftype)

/-- Decidable equality for `Except`, used to evaluate outcomes on concrete
inputs. -/
instance {e a : Type} [DecidableEq e] [DecidableEq a] : DecidableEq (Except e a) := fun x y =>
  match x, y with
  | .error u, .error v =>
    match decEq u v with
    | isTrue h => isTrue (h ▸ rfl)
    | isFalse h => isFalse (fun hc => h (by injection hc))
  | .ok u, .ok v =>
    match decEq u v with
    | isTrue h => isTrue (h ▸ rfl)
    | isFalse h => isFalse (fun hc => h (by injection hc))
  | .error _, .ok _ => isFalse (fun hc => Except.noConfusion hc)
  | .ok _, .error _ => isFalse (fun hc => Except.noConfusion hc)

/-! ### Helper lemmas on strings and prefixes -/

theorem strExt {a b : String} (h : a.data = b.data) : a = b := by
  cases a; cases b; exact congrArg String.mk h

theorem strData_append (a b : String) : (a ++ b).data = a.data ++ b.data := rfl

theorem pyStartsWith_iff (s pre : String) :
    pyStartsWith s pre = true ↔ pre.data <+: s.data := by
  unfold pyStartsWith; exact List.isPrefixOf_iff_prefix

theorem data_ne_nil {s : String} (h : s ≠ "") : s.data ≠ [] := by
  intro h0; exact h (strExt h0)

/-! ### Claim C1 (code bug): the reject route resolves its client path
against the pending root with no validation, so a `..` segment escapes the
pending root and deletes content-root files. -/

/-- Claim C1: the invariant "every pending-relative path passed to reject
resolves inside the pending root" fails on the code: `reject_file` resolves
`pending_root/../secret.txt` to `base/secret.txt`, a path that is not inside
the pending root, and unlinks it. -/
theorem claim_C1 :
    resolveFrom ["srv", "media", "_pending_uploads"] ["..", "secret.txt"]
      = ["srv", "media", "secret.txt"]
    ∧ (["srv", "media", "_pending_uploads"] : SPath).isPrefixOf
        ["srv", "media", "secret.txt"] = false
    ∧ (reject_file
        ⟨[(["srv", "media", "secret.txt"], 7)],
         [["srv"], ["srv", "media"], ["srv", "media", "_pending_uploads"]]⟩
        ["srv", "media", "_pending_uploads"] ["..", "secret.txt"]).files = [] := by
  decide

/-! ### Claim C3: the traversal check of `safe_rel_path` -/

/-- Claim C3: every relative path string whose logical segments (after
trimming whitespace and converting backslashes) contain a literal `".."`
segment is rejected by `safe_rel_path` with a 400-equivalent structural
error; the decision uses only the logical segments, no filesystem
resolution. -/
theorem claim_C3 (rel : String) (h : ".." ∈ logicalSegs (pyNormRel rel)) :
    safe_rel_path rel = .error .badRequest := by
  have hc : ¬ (pyNormRel rel = "" ∨ pyNormRel rel = "." ∨ pyNormRel rel = "/") := by
    intro h1
    rcases h1 with h1 | h1 | h1 <;> rw [h1] at h <;> exact absurd h (by decide)
  simp only [safe_rel_path]
  rw [if_neg hc, if_pos h]

/-- Witness for C3 at the concrete input `"a/../b"`. -/
theorem claim_C3_witness :
    ".." ∈ logicalSegs (pyNormRel "a/../b")
    ∧ safe_rel_path "a/../b" = .error .badRequest :=
  ⟨by decide, claim_C3 "a/../b" (by decide)⟩

/-! ### Claim C9: the confinement check is a raw string-prefix test -/

/-- Claim C9: the sandbox check `str(full).startswith(str(base))` used by
`get_file_safe` (and `get_dir_safe`) has no trailing separator, so a resolved
path under a sibling directory whose name extends the base directory's name
(e.g. base `/srv/media`, target `/srv/media2/secret`) passes the check and is
served as ordinary content, although it is not under the base directory. -/
theorem claim_C9 (base ext rest pname rel : String) (resolve : RelPath → String)
    (p : RelPath)
    (hok : safe_rel_path rel = .ok p)
    (hres : resolve p = base ++ ext ++ "/" ++ rest)
    (hext : ext ≠ "")
    (hslash : ext.data.head? ≠ some '/') :
    get_file_safe base (base ++ "/" ++ pname) resolve rel
      = .ok (base ++ ext ++ "/" ++ rest)
    ∧ ¬ strUnder (base ++ ext ++ "/" ++ rest) base := by
  obtain ⟨c0, cs, hcs⟩ : ∃ c0 cs, ext.data = c0 :: cs := by
    cases hns : ext.data with
    | nil => exact absurd hns (data_ne_nil hext)
    | cons a l => exact ⟨a, l, rfl⟩
  have hc0 : c0 ≠ '/' := by
    intro he; exact hslash (by rw [hcs, he]; rfl)
  have hdata : (base ++ ext ++ "/" ++ rest).data
      = base.data ++ (c0 :: (cs ++ '/' :: rest.data)) := by
    simp [strData_append, hcs]
  -- the raw check passes
  have hchk : pyStartsWith (base ++ ext ++ "/" ++ rest) base = true := by
    rw [pyStartsWith_iff, hdata]; exact List.prefix_append _ _
  -- the path does not start with `base ++ "/"`, hence not with the pending dir
  have hnoslash : ¬ ((base ++ "/").data <+: (base ++ ext ++ "/" ++ rest).data) := by
    rw [hdata]
    intro hpre
    have : (base.data ++ ['/']) <+: base.data ++ (c0 :: (cs ++ '/' :: rest.data)) := by
      simpa [strData_append] using hpre
    have h2 : ['/'] <+: (c0 :: (cs ++ '/' :: rest.data)) :=
      (List.prefix_append_right_inj base.data).mp this
    obtain ⟨t, ht⟩ := h2
    exact hc0 (by injection ht with h1 _; exact h1.symm)
  have hpend : pyStartsWith (base ++ ext ++ "/" ++ rest) (base ++ "/" ++ pname) = false := by
    rw [Bool.eq_false_iff]
    intro hsw
    apply hnoslash
    have h1 : (base ++ "/").data <+: (base ++ "/" ++ pname).data := by
      simp only [strData_append, List.append_assoc]
      exact (List.prefix_append_right_inj base.data).mpr (List.prefix_append _ _)
    exact h1.trans ((pyStartsWith_iff _ _).mp hsw)
  refine ⟨?_, ?_⟩
  · simp only [get_file_safe, hok, hres, hchk, hpend]
    simp
  · intro hu
    rcases hu with he | hsw
    · have := congrArg (fun s => s.data.length) he
      simp only [hdata] at this
      simp at this
    · exact hnoslash ((pyStartsWith_iff _ _).mp hsw)

/-- Witness for C9: base `/srv/media`, sibling `/srv/media2/secret` reached
by resolution, pending name `_pending_uploads`. -/
theorem claim_C9_witness :
    (safe_rel_path "x" = .ok ⟨false, ["x"]⟩
      ∧ ("2" : String) ≠ ""
      ∧ ("2" : String).data.head? ≠ some '/')
    ∧ (get_file_safe "/srv/media" ("/srv/media" ++ "/" ++ "_pending_uploads")
          (fun _ => "/srv/media" ++ "2" ++ "/" ++ "secret") "x"
        = .ok ("/srv/media" ++ "2" ++ "/" ++ "secret")
      ∧ ¬ strUnder ("/srv/media" ++ "2" ++ "/" ++ "secret") "/srv/media") :=
  ⟨⟨by decide, by decide, by decide⟩,
    claim_C9 "/srv/media" "2" "secret" "_pending_uploads" "x"
      (fun _ => "/srv/media" ++ "2" ++ "/" ++ "secret") ⟨false, ["x"]⟩
      (by decide) rfl (by decide) (by decide)⟩

/-! ### Claim C2: the pending subtree is invisible as ordinary content -/

/-- Claim C2: (1) any client path under the content root whose canonicalized
form resolves inside the pending root is rejected by `get_file_safe` as
not-found (404, not 400); (2) `Utils.list_dir` never returns a folder entry
named like the pending root, whatever the directory's contents. -/
theorem claim_C2 :
    (∀ (base pname rel : String) (resolve : RelPath → String) (p : RelPath),
      safe_rel_path rel = .ok p →
      strUnder (resolve p) (base ++ "/" ++ pname) →
      get_file_safe base (base ++ "/" ++ pname) resolve rel = .error .notFound)
    ∧ (∀ (pname : String) (d : MDir) (f : FolderRec),
        f ∈ (Utils.list_dir pname d).1 → f.name ≠ pname) := by
  constructor
  · intro base pname rel resolve p hok hunder
    have hpendfull : (base ++ "/" ++ pname).data <+: (resolve p).data := by
      rcases hunder with he | hsw
      · rw [he]
      · exact ((List.prefix_append _ _).trans
          (by simpa [strData_append, List.append_assoc] using
            (pyStartsWith_iff _ _).mp hsw))
    have hpend : pyStartsWith (resolve p) (base ++ "/" ++ pname) = true := by
      rw [pyStartsWith_iff]; exact hpendfull
    have hbase : pyStartsWith (resolve p) base = true := by
      rw [pyStartsWith_iff]
      exact ((List.prefix_append base.data ("/" ++ pname).data).trans
        (by simpa [strData_append, List.append_assoc] using hpendfull))
    simp only [get_file_safe, hok, hbase, hpend]
    simp
  · intro pname d f hmem
    unfold Utils.list_dir at hmem
    split at hmem
    · simp at hmem
    · simp only at hmem
      obtain ⟨e, _, hfe⟩ := List.mem_filterMap.mp hmem
      unfold folderOf at hfe
      split at hfe
      · split at hfe
        · exact absurd hfe (by simp)
        · rename_i hne
          injection hfe with hfe
          rw [← hfe]
          exact hne
      · exact absurd hfe (by simp)

/-- Witness for C2: a path resolving into the pending root is answered 404,
and a concrete listing containing a folder does not name the pending root. -/
theorem claim_C2_witness :
    (safe_rel_path "f.txt" = .ok ⟨false, ["f.txt"]⟩
      ∧ strUnder "/r/_p/f.txt" ("/r" ++ "/" ++ "_p")
      ∧ get_file_safe "/r" ("/r" ++ "/" ++ "_p") (fun _ => "/r/_p/f.txt") "f.txt"
          = .error .notFound)
    ∧ ((⟨"movies", "movies", 3⟩ : FolderRec)
          ∈ (Utils.list_dir "_p" ⟨false, [⟨"movies", "movies", true, false, 3, 0, 0, none⟩]⟩).1
      ∧ ("movies" : String) ≠ "_p") := by
  have hmem : (⟨"movies", "movies", 3⟩ : FolderRec)
      ∈ (Utils.list_dir "_p" ⟨false, [⟨"movies", "movies", true, false, 3, 0, 0, none⟩]⟩).1 := by
    simp [Utils.list_dir, folderOf]
  exact ⟨⟨by decide, by decide,
      claim_C2.1 "/r" "_p" "f.txt" (fun _ => "/r/_p/f.txt") ⟨false, ["f.txt"]⟩
        (by decide) (by decide)⟩,
    ⟨hmem, claim_C2.2 "_p" _ _ hmem⟩⟩

/-! ### RangeStreamer lemmas -/

theorem matchRange_ne_empty {h : String} {r : Nat × Option Nat}
    (hm : matchRange h.data = some r) : h ≠ "" := by
  intro h0
  rw [h0, show matchRange "".data = none from by decide] at hm
  exact Option.noConfusion hm

theorem stream_file_parsed (file : List Nat) (h : String) (s : Nat) (eo : Option Nat)
    (endv : Int)
    (hend : endv = match eo with
      | some x => (x : Int)
      | none => (file.length : Int) - 1)
    (hm : matchRange h.data = some (s, eo))
    (hs : s < file.length) :
    stream_file file (some h) =
      ⟨206, some (s, min endv ((file.length : Int) - 1), file.length), true,
        some (min endv ((file.length : Int) - 1) - (s : Int) + 1),
        iter_file file s (min endv ((file.length : Int) - 1)) (1024 * 1024)⟩ := by
  have hne : h ≠ "" := matchRange_ne_empty hm
  subst hend
  cases eo with
  | some x =>
    simp only [stream_file, hm, if_neg hne]
    rw [if_neg (by omega : ¬ s ≥ file.length)]
  | none =>
    simp only [stream_file, hm, if_neg hne]
    rw [if_neg (by omega : ¬ s ≥ file.length)]

theorem stream_file_malformed (file : List Nat) (h : String) (hne : h ≠ "")
    (hm : matchRange h.data = none) :
    stream_file file (some h) = ⟨416, none, false, none, []⟩ := by
  simp only [stream_file, hm, if_neg hne]

theorem stream_file_out_of_range (file : List Nat) (h : String) (s : Nat) (eo : Option Nat)
    (hm : matchRange h.data = some (s, eo)) (hs : s ≥ file.length) :
    stream_file file (some h) = ⟨416, none, false, none, []⟩ := by
  have hne : h ≠ "" := matchRange_ne_empty hm
  cases eo with
  | some x =>
    simp only [stream_file, hm, if_neg hne]
    rw [if_pos (by omega : s ≥ file.length)]
  | none =>
    simp only [stream_file, hm, if_neg hne]
    rw [if_pos (by omega : s ≥ file.length)]

theorem iter_go_join_length (file : List Nat) (csize : Nat) (hc : csize ≠ 0) :
    ∀ fuel rem pos, rem ≤ fuel →
      ((iter_file_go file csize fuel pos rem).flatten).length
        = min rem (file.length - pos) := by
  intro fuel
  induction fuel with
  | zero =>
    intro rem pos hle
    have h0 : rem = 0 := by omega
    simp [iter_file_go, h0]
  | succ fuel ih =>
    intro rem pos hle
    by_cases h0 : rem = 0
    · simp [iter_file_go, h0]
    · simp only [iter_file_go, if_neg h0]
      have hk : ((file.drop pos).take (min csize rem)).length
          = min (min csize rem) (file.length - pos) := by
        simp [List.length_take, List.length_drop]
      by_cases hz : ((file.drop pos).take (min csize rem)).length = 0
      · rw [if_pos hz]
        rw [hk] at hz
        simp only [List.flatten_nil, List.length_nil]
        omega
      · rw [if_neg hz]
        rw [hk] at hz ⊢
        simp only [List.flatten_cons, List.length_append, hk,
          ih (rem - min (min csize rem) (file.length - pos)) _ (by omega)]
        omega

theorem iter_go_chunk_le (file : List Nat) (csize : Nat) :
    ∀ fuel pos rem c, c ∈ iter_file_go file csize fuel pos rem → c.length ≤ csize := by
  intro fuel
  induction fuel with
  | zero => intro pos rem c hc; simp [iter_file_go] at hc
  | succ fuel ih =>
    intro pos rem c hc
    by_cases h0 : rem = 0
    · simp [iter_file_go, h0] at hc
    · simp only [iter_file_go, if_neg h0] at hc
      by_cases hz : ((file.drop pos).take (min csize rem)).length = 0
      · rw [if_pos hz] at hc; simp at hc
      · rw [if_neg hz] at hc
        rcases List.mem_cons.mp hc with he | hrest
        · rw [he]
          calc ((file.drop pos).take (min csize rem)).length
              ≤ min csize rem := List.length_take_le _ _
            _ ≤ csize := min_le_left _ _
        · exact ih _ _ _ hrest

/-! ### Claim C10: reversed ranges are served as 206 with empty body -/

/-- Claim C10: a parsed header `bytes=s-e` with `e < s < file size` is
answered 206 with `Content-Range` spanning `s` to `e`, a `Content-Length` of
`e - s + 1` (zero or negative), and an empty body, because `iter_file` yields
nothing when `end < start`; no 416 is produced. -/
theorem claim_C10 (file : List Nat) (h : String) (s e : Nat)
    (hm : matchRange h.data = some (s, some e)) (hlt : e < s) (hs : s < file.length) :
    (stream_file file (some h)).status = 206
    ∧ (stream_file file (some h)).contentRange = some (s, (e : Int), file.length)
    ∧ (stream_file file (some h)).contentLength = some ((e : Int) - (s : Int) + 1)
    ∧ (e : Int) - (s : Int) + 1 ≤ 0
    ∧ (stream_file file (some h)).body = [] := by
  rw [stream_file_parsed file h s (some e) ((e : Nat) : Int) rfl hm hs]
  rw [show min ((e : Nat) : Int) ((file.length : Int) - 1) = ((e : Nat) : Int) from
    min_eq_left (by omega)]
  refine ⟨rfl, rfl, rfl, by omega, ?_⟩
  show iter_file file s ((e : Nat) : Int) (1024 * 1024) = []
  unfold iter_file
  rw [show (((e : Nat) : Int) - (s : Nat) + 1).toNat = 0 from by omega]
  rfl

/-- Witness for C10 at `bytes=5-3` on a 10-byte file. -/
theorem claim_C10_witness :
    (matchRange "bytes=5-3".data = some (5, some 3) ∧ 3 < 5 ∧ 5 < (List.replicate 10 0).length)
    ∧ ((stream_file (List.replicate 10 0) (some "bytes=5-3")).status = 206
      ∧ (stream_file (List.replicate 10 0) (some "bytes=5-3")).contentRange
          = some (5, (3 : Int), (List.replicate 10 0).length)
      ∧ (stream_file (List.replicate 10 0) (some "bytes=5-3")).contentLength
          = some ((3 : Int) - (5 : Int) + 1)
      ∧ (3 : Int) - (5 : Int) + 1 ≤ 0
      ∧ (stream_file (List.replicate 10 0) (some "bytes=5-3")).body = []) :=
  ⟨⟨by decide, by decide, by decide⟩,
    claim_C10 (List.replicate 10 0) "bytes=5-3" 5 3 (by decide) (by decide) (by decide)⟩

/-! ### Claim C5 (corrected): Range-header error handling -/

/-- Counterexample to C5 as stated: multi-range syntax is not answered 416 —
`re.match` is a prefix match, so `bytes=0-5,7-9` parses as the single range
0–5 and is served with 206. -/
theorem claim_C5_counterexample :
    (stream_file (List.replicate 100 0) (some "bytes=0-5,7-9")).status = 206
    ∧ (stream_file (List.replicate 100 0) (some "bytes=0-5,7-9")).status ≠ 416 := by
  constructor <;> decide

/-- Claim C5 as amended: (1) a non-empty Range header with no prefix of the
form `bytes=<digits>-<digits?>` is answered 416 with no body; (2) a parsed
start at or beyond the file size is answered 416 with no body; (3) but a
multi-range header is not malformed to the parser — its first range is
served with 206 (here `bytes=0-5,7-9` on any file longer than 6 bytes).
(An empty Range header value is falsy in Python and serves the full file.) -/
theorem claim_C5 :
    (∀ (file : List Nat) (h : String), h ≠ "" → matchRange h.data = none →
      stream_file file (some h) = ⟨416, none, false, none, []⟩)
    ∧ (∀ (file : List Nat) (h : String) (s : Nat) (eo : Option Nat),
        matchRange h.data = some (s, eo) → s ≥ file.length →
        stream_file file (some h) = ⟨416, none, false, none, []⟩)
    ∧ (∀ (file : List Nat), 5 < file.length →
        (stream_file file (some "bytes=0-5,7-9")).status = 206
        ∧ (stream_file file (some "bytes=0-5,7-9")).contentRange
            = some (0, (5 : Int), file.length)) := by
  refine ⟨stream_file_malformed, stream_file_out_of_range, ?_⟩
  intro file hlen
  have hm : matchRange "bytes=0-5,7-9".data = some (0, some 5) := by decide
  rw [stream_file_parsed file _ 0 (some 5) ((5 : Nat) : Int) rfl hm (by omega)]
  rw [show min ((5 : Nat) : Int) ((file.length : Int) - 1) = ((5 : Nat) : Int) from
    min_eq_left (by omega)]
  exact ⟨rfl, rfl⟩

/-- Witness for C5 applying all three amended parts at concrete inputs. -/
theorem claim_C5_witness :
    (("bytes=x" : String) ≠ "" ∧ matchRange "bytes=x".data = none
      ∧ stream_file [1, 2] (some "bytes=x") = ⟨416, none, false, none, []⟩)
    ∧ (matchRange "bytes=7-9".data = some (7, some 9) ∧ 7 ≥ ([1, 2] : List Nat).length
      ∧ stream_file [1, 2] (some "bytes=7-9") = ⟨416, none, false, none, []⟩)
    ∧ (5 < (List.replicate 9 3).length
      ∧ (stream_file (List.replicate 9 3) (some "bytes=0-5,7-9")).status = 206
      ∧ (stream_file (List.replicate 9 3) (some "bytes=0-5,7-9")).contentRange
          = some (0, (5 : Int), (List.replicate 9 3).length)) :=
  ⟨⟨by decide, by decide, claim_C5.1 [1, 2] "bytes=x" (by decide) (by decide)⟩,
    ⟨by decide, by decide, claim_C5.2.1 [1, 2] "bytes=7-9" 7 (some 9) (by decide) (by decide)⟩,
    ⟨by decide, (claim_C5.2.2 (List.replicate 9 3) (by decide)).1,
      (claim_C5.2.2 (List.replicate 9 3) (by decide)).2⟩⟩

/-! ### Claim C4 (corrected): the happy-path range responses -/

/-- Counterexample to C4 as stated: on the empty file (size 0), `bytes=0-` is
answered 416, not 206, because the code first rejects `start >= file_size`. -/
theorem claim_C4_counterexample :
    (stream_file [] (some "bytes=0-")).status ≠ 206
    ∧ (stream_file [] (some "bytes=0-")).status = 416 := by
  constructor <;> decide

/-- Claim C4 as amended: for every non-empty file of size N, `bytes=0-` is
answered 206 with `Content-Range: bytes 0-(N-1)/N` and a body of exactly N
bytes; and for any parsed range with start < N, a missing end defaults to the
last byte, the end is clamped to N-1, the `Content-Length` equals the clamped
span end-start+1, and every body chunk is at most the fixed 1 MiB chunk
size.  (The empty file answers 416 to `bytes=0-`.) -/
theorem claim_C4 (file : List Nat) (hne : file ≠ []) :
    ((stream_file file (some "bytes=0-")).status = 206
      ∧ (stream_file file (some "bytes=0-")).contentRange
          = some (0, (file.length : Int) - 1, file.length)
      ∧ ((stream_file file (some "bytes=0-")).body.flatten).length = file.length)
    ∧ (∀ (h : String) (s : Nat) (eo : Option Nat) (endv : Int),
        (endv = match eo with
          | some x => (x : Int)
          | none => (file.length : Int) - 1) →
        matchRange h.data = some (s, eo) →
        s < file.length →
        (stream_file file (some h)).status = 206
        ∧ (stream_file file (some h)).contentRange
            = some (s, min endv ((file.length : Int) - 1), file.length)
        ∧ (stream_file file (some h)).contentLength
            = some (min endv ((file.length : Int) - 1) - (s : Int) + 1)
        ∧ ∀ c ∈ (stream_file file (some h)).body, c.length ≤ 1024 * 1024) := by
  have hpos : 0 < file.length := List.length_pos.mpr hne
  constructor
  · have hm : matchRange "bytes=0-".data = some (0, none) := by decide
    rw [stream_file_parsed file _ 0 none ((file.length : Int) - 1) rfl hm hpos]
    rw [min_self]
    refine ⟨rfl, rfl, ?_⟩
    show ((iter_file file 0 ((file.length : Int) - 1) (1024 * 1024)).flatten).length
      = file.length
    unfold iter_file
    rw [show ((file.length : Int) - 1 - (0 : Nat) + 1).toNat = file.length from by omega]
    rw [iter_go_join_length file (1024 * 1024) (by decide) file.length file.length 0
      (le_refl _)]
    omega
  · intro h s eo endv hend hm hs
    rw [stream_file_parsed file h s eo endv hend hm hs]
    refine ⟨rfl, rfl, rfl, ?_⟩
    intro c hc
    exact iter_go_chunk_le file (1024 * 1024) _ _ _ c hc

/-- Witness for C4 on the two-byte file `[7, 8]`, exercising both parts. -/
theorem claim_C4_witness :
    (([7, 8] : List Nat) ≠ [])
    ∧ ((stream_file [7, 8] (some "bytes=0-")).status = 206
      ∧ (stream_file [7, 8] (some "bytes=0-")).contentRange
          = some (0, (([7, 8] : List Nat).length : Int) - 1, ([7, 8] : List Nat).length)
      ∧ ((stream_file [7, 8] (some "bytes=0-")).body.flatten).length
          = ([7, 8] : List Nat).length)
    ∧ ((stream_file [7, 8] (some "bytes=1-")).status = 206
      ∧ (stream_file [7, 8] (some "bytes=1-")).contentRange
          = some (1, min ((([7, 8] : List Nat).length : Int) - 1)
              ((([7, 8] : List Nat).length : Int) - 1), ([7, 8] : List Nat).length)
      ∧ (stream_file [7, 8] (some "bytes=1-")).contentLength
          = some (min ((([7, 8] : List Nat).length : Int) - 1)
              ((([7, 8] : List Nat).length : Int) - 1) - ((1 : Nat) : Int) + 1)
      ∧ ∀ c ∈ (stream_file [7, 8] (some "bytes=1-")).body, c.length ≤ 1024 * 1024) :=
  ⟨by decide, (claim_C4 [7, 8] (by decide)).1,
    (claim_C4 [7, 8] (by decide)).2 "bytes=1-" 1 none ((([7, 8] : List Nat).length : Int) - 1)
      rfl (by decide) (by decide)⟩

/-! ### Claim C7 (corrected): permission tolerance of the two list_dir
implementations -/

/-- Counterexample to C7 as stated: `app.list_dir` has no
`try/except PermissionError` — a denied child count propagates the error
instead of yielding a count of zero. -/
theorem claim_C7_counterexample :
    App.list_dir "_pending_uploads"
        ⟨false, [⟨"docs", "docs", true, true, 3, 0, 0, none⟩]⟩
      = .error .permissionError := by
  unfold App.list_dir
  rw [if_neg (by decide)]
  rw [show (⟨false, [⟨"docs", "docs", true, true, 3, 0, 0, none⟩]⟩ : MDir).entries.mergeSort entLe
      = [⟨"docs", "docs", true, true, 3, 0, 0, none⟩] from List.mergeSort_singleton _]
  decide

/-- Claim C7 as amended: the permission tolerance holds in `utils.list_dir`
(the layer used by src/server.py) only — a denied directory enumeration
yields an empty listing and a denied child count yields a folder with count
zero — while `app.list_dir` propagates the `PermissionError` in both cases. -/
theorem claim_C7 :
    (∀ (pn : String) (d : MDir), d.permDenied = true → Utils.list_dir pn d = ([], []))
    ∧ (∀ (pn : String) (d : MDir) (e : MEntry),
        e ∈ d.entries → d.permDenied = false → e.isDir = true → e.permDenied = true →
        e.name ≠ pn →
        (⟨e.name, e.rel, 0⟩ : FolderRec) ∈ (Utils.list_dir pn d).1) := by
  constructor
  · intro pn d hp
    unfold Utils.list_dir
    rw [if_pos hp]
  · intro pn d e hmem hp hdir hpd hname
    unfold Utils.list_dir
    rw [if_neg (by rw [hp]; exact Bool.false_ne_true)]
    refine List.mem_filterMap.mpr ⟨e, List.mem_mergeSort.mpr hmem, ?_⟩
    unfold folderOf
    rw [if_pos hdir, if_neg hname, if_pos hpd]

/-- Witness for C7: a denied enumeration gives an empty listing and a denied
child count gives a zero-count folder row. -/
theorem claim_C7_witness :
    ((⟨true, []⟩ : MDir).permDenied = true
      ∧ Utils.list_dir "_p" ⟨true, []⟩ = ([], []))
    ∧ ((⟨"locked", "locked", true, true, 5, 0, 0, none⟩ : MEntry)
          ∈ (⟨false, [⟨"locked", "locked", true, true, 5, 0, 0, none⟩]⟩ : MDir).entries
      ∧ (⟨"locked", "locked", 0⟩ : FolderRec)
          ∈ (Utils.list_dir "_p" ⟨false, [⟨"locked", "locked", true, true, 5, 0, 0, none⟩]⟩).1) :=
  ⟨⟨rfl, claim_C7.1 "_p" ⟨true, []⟩ rfl⟩,
    ⟨by decide,
      claim_C7.2 "_p" ⟨false, [⟨"locked", "locked", true, true, 5, 0, 0, none⟩]⟩
        ⟨"locked", "locked", true, true, 5, 0, 0, none⟩
        (by decide) rfl rfl rfl (by decide)⟩⟩

/-! ### Comparator lemmas for the sort stage -/

theorem lexLe_trans : ∀ a b c : List Char,
    lexLe a b = true → lexLe b c = true → lexLe a c = true := by
  intro a
  induction a with
  | nil => intro b c _ _; rfl
  | cons x xs ih =>
    intro b c hab hbc
    cases b with
    | nil => simp [lexLe] at hab
    | cons y ys =>
      cases c with
      | nil => simp [lexLe] at hbc
      | cons z zs =>
        simp only [lexLe] at hab hbc ⊢
        by_cases hxy : x.toNat < y.toNat
        · by_cases hyz : y.toNat < z.toNat
          · rw [if_pos (by omega)]
          · rw [if_neg hyz] at hbc
            by_cases hzy : z.toNat < y.toNat
            · rw [if_pos hzy] at hbc; exact absurd hbc (by simp)
            · rw [if_pos (by omega)]
        · rw [if_neg hxy] at hab
          by_cases hyx : y.toNat < x.toNat
          · rw [if_pos hyx] at hab; exact absurd hab (by simp)
          · rw [if_neg hyx] at hab
            by_cases hyz : y.toNat < z.toNat
            · rw [if_pos (by omega)]
            · rw [if_neg hyz] at hbc
              by_cases hzy : z.toNat < y.toNat
              · rw [if_pos hzy] at hbc; exact absurd hbc (by simp)
              · rw [if_neg hzy] at hbc
                rw [if_neg (by omega), if_neg (by omega)]
                exact ih ys zs hab hbc

theorem lexLe_total : ∀ a b : List Char, (lexLe a b || lexLe b a) = true := by
  intro a
  induction a with
  | nil => intro b; rfl
  | cons x xs ih =>
    intro b
    cases b with
    | nil => rfl
    | cons y ys =>
      simp only [lexLe]
      by_cases hxy : x.toNat < y.toNat
      · rw [if_pos hxy]; rfl
      · by_cases hyx : y.toNat < x.toNat
        · rw [if_neg hxy, if_pos hyx, if_pos hyx]; simp
        · rw [if_neg hxy, if_neg hyx, if_neg hyx, if_neg hxy]
          exact ih ys

theorem fileKeyLe_trans (sb : String) : ∀ a b c : FileRec,
    fileKeyLe sb a b = true → fileKeyLe sb b c = true → fileKeyLe sb a c = true := by
  intro a b c hab hbc
  unfold fileKeyLe at hab hbc ⊢
  by_cases hs : sb = "size"
  · rw [if_pos hs] at hab hbc ⊢
    simp only [decide_eq_true_eq] at hab hbc ⊢
    omega
  · rw [if_neg hs] at hab hbc ⊢
    by_cases hm : sb = "mtime"
    · rw [if_pos hm] at hab hbc ⊢
      simp only [decide_eq_true_eq] at hab hbc ⊢
      omega
    · rw [if_neg hm] at hab hbc ⊢
      exact lexLe_trans _ _ _ hab hbc

theorem fileKeyLe_total (sb : String) : ∀ a b : FileRec,
    (fileKeyLe sb a b || fileKeyLe sb b a) = true := by
  intro a b
  unfold fileKeyLe
  by_cases hs : sb = "size"
  · rw [if_pos hs, if_pos hs]
    simp only [Bool.or_eq_true, decide_eq_true_eq]
    omega
  · rw [if_neg hs, if_neg hs]
    by_cases hm : sb = "mtime"
    · rw [if_pos hm, if_pos hm]
      simp only [Bool.or_eq_true, decide_eq_true_eq]
      omega
    · rw [if_neg hm, if_neg hm]
      exact lexLe_total _ _

/-! ### Stability and idempotence of the sort stage -/

theorem mergeSort_filter_ties (le : FileRec → FileRec → Bool)
    (htr : ∀ a b c, le a b = true → le b c = true → le a c = true)
    (hto : ∀ a b, (le a b || le b a) = true)
    (p : FileRec → Bool) (hp : ∀ a b, p a = true → p b = true → le a b = true)
    (l : List FileRec) : (l.mergeSort le).filter p = l.filter p := by
  have hpair : (l.filter p).Pairwise (fun a b => le a b = true) := by
    apply List.pairwise_of_forall_mem_list
    intro a ha b hb
    exact hp a b (List.of_mem_filter ha) (List.of_mem_filter hb)
  have hsub : List.Sublist (l.filter p) (l.mergeSort le) :=
    List.sublist_mergeSort htr hto hpair (List.filter_sublist l)
  have hsub2 : List.Sublist (l.filter p) ((l.mergeSort le).filter p) := by
    have h1 := hsub.filter p
    rwa [List.filter_eq_self.mpr (fun a ha => List.of_mem_filter ha)] at h1
  have hperm : ((l.mergeSort le).filter p).Perm (l.filter p) :=
    (List.mergeSort_perm l le).filter p
  exact (hsub2.eq_of_length hperm.length_eq.symm).symm

theorem pysort_true (le : FileRec → FileRec → Bool) (l : List FileRec) :
    pysort le true l = (l.reverse.mergeSort le).reverse := rfl

theorem pysort_false (le : FileRec → FileRec → Bool) (l : List FileRec) :
    pysort le false l = l.mergeSort le := rfl

theorem pysort_filter_ties (le : FileRec → FileRec → Bool)
    (htr : ∀ a b c, le a b = true → le b c = true → le a c = true)
    (hto : ∀ a b, (le a b || le b a) = true)
    (p : FileRec → Bool) (hp : ∀ a b, p a = true → p b = true → le a b = true)
    (rev : Bool) (l : List FileRec) :
    (pysort le rev l).filter p = l.filter p := by
  cases rev with
  | false => exact mergeSort_filter_ties le htr hto p hp l
  | true =>
    rw [pysort_true, List.filter_reverse, mergeSort_filter_ties le htr hto p hp,
      List.filter_reverse, List.reverse_reverse]

theorem pysort_idem (le : FileRec → FileRec → Bool)
    (htr : ∀ a b c, le a b = true → le b c = true → le a c = true)
    (hto : ∀ a b, (le a b || le b a) = true)
    (rev : Bool) (l : List FileRec) :
    pysort le rev (pysort le rev l) = pysort le rev l := by
  cases rev with
  | false =>
    rw [pysort_false, pysort_false]
    exact List.mergeSort_of_sorted (List.sorted_mergeSort htr hto l)
  | true =>
    rw [pysort_true, pysort_true, List.reverse_reverse,
      List.mergeSort_of_sorted (List.sorted_mergeSort htr hto l.reverse)]

theorem mem_pysort {le : FileRec → FileRec → Bool} {rev : Bool} {l : List FileRec}
    {a : FileRec} (h : a ∈ pysort le rev l) : a ∈ l := by
  cases rev with
  | false => rw [pysort_false] at h; exact List.mem_mergeSort.mp h
  | true =>
    rw [pysort_true, List.mem_reverse, List.mem_mergeSort, List.mem_reverse] at h
    exact h

/-! ### Filter-stage lemmas -/

theorem mem_applyFilters {files : List FileRec} {q t : String} {f : FileRec}
    (h : f ∈ applyFilters files q t) :
    (q ≠ "" → pyContains ⟨lowerChars q⟩ ⟨lowerChars f.name⟩ = true)
    ∧ (t ≠ "all" → f.ftype = t) := by
  unfold applyFilters at h
  by_cases hq : q = "" <;> by_cases ht : t = "all" <;>
    simp only [if_pos, if_neg, hq, ht, ite_true, ite_false, if_true, if_false] at h
  · exact ⟨fun hc => absurd hq hc, fun hc => absurd ht hc⟩
  · exact ⟨fun hc => absurd hq hc,
      fun _ => of_decide_eq_true (List.mem_filter.mp h).2⟩
  · exact ⟨fun _ => (List.mem_filter.mp h).2, fun hc => absurd ht hc⟩
  · refine ⟨fun _ => ?_, fun _ => ?_⟩
    · exact (List.mem_filter.mp (List.mem_of_mem_filter h)).2
    · exact of_decide_eq_true (List.mem_filter.mp h).2

theorem applyFilters_eq_self {l : List FileRec} {q t : String}
    (h : ∀ f ∈ l,
      (q ≠ "" → pyContains ⟨lowerChars q⟩ ⟨lowerChars f.name⟩ = true)
      ∧ (t ≠ "all" → f.ftype = t)) :
    applyFilters l q t = l := by
  unfold applyFilters
  by_cases hq : q = "" <;> by_cases ht : t = "all" <;>
    simp only [if_pos, if_neg, hq, ht, ite_true, ite_false, if_true, if_false]
  · exact List.filter_eq_self.mpr (fun f hf => decide_eq_true ((h f hf).2 ht))
  · exact List.filter_eq_self.mpr (fun f hf => (h f hf).1 hq)
  · rw [List.filter_eq_self.mpr (fun f hf => (h f hf).1 hq)]
    exact List.filter_eq_self.mpr (fun f hf => decide_eq_true ((h f hf).2 ht))

theorem fileOf_name {e : MEntry} {r : FileRec} (h : fileOf e = some r) :
    r.name = e.name := by
  unfold fileOf at h
  by_cases hd : e.isDir = true
  · rw [if_pos hd] at h; exact Option.noConfusion h
  · rw [if_neg hd] at h
    injection h with h2
    rw [← h2]

/-! ### Claim C8: idempotence, stability and base order of filter/sort -/

/-- Claim C8: (1) applying `filter_sort_files` twice with the same arguments
equals applying it once, for every query, category, sort key and order;
(2, 3) entries tied under the size or mtime key keep their relative order
from the filter stage (the sort is stable, also for descending order); and
(4) the base enumeration order feeding the file list is case-insensitive
name order, ascending. -/
theorem claim_C8 :
    (∀ (files : List FileRec) (q t sb o : String),
      filter_sort_files (filter_sort_files files q t sb o) q t sb o
        = filter_sort_files files q t sb o)
    ∧ (∀ (files : List FileRec) (q t o : String) (k : Nat),
        (filter_sort_files files q t "size" o).filter (fun f => f.size = k)
          = (applyFilters files q t).filter (fun f => f.size = k))
    ∧ (∀ (files : List FileRec) (q t o : String) (k : Nat),
        (filter_sort_files files q t "mtime" o).filter (fun f => f.mtime = k)
          = (applyFilters files q t).filter (fun f => f.mtime = k))
    ∧ (∀ (pn : String) (d : MDir),
        ((Utils.list_dir pn d).2).Pairwise
          (fun a b => lexLe (lowerChars a.name) (lowerChars b.name) = true)) := by
  refine ⟨?_, ?_, ?_, ?_⟩
  · intro files q t sb o
    unfold filter_sort_files
    rw [applyFilters_eq_self (fun f hf => mem_applyFilters (mem_pysort hf))]
    exact pysort_idem _ (fileKeyLe_trans sb) (fileKeyLe_total sb) _ _
  · intro files q t o k
    unfold filter_sort_files
    refine pysort_filter_ties _ (fileKeyLe_trans _) (fileKeyLe_total _) _ ?_ _ _
    intro a b ha hb
    simp only [decide_eq_true_eq] at ha hb
    unfold fileKeyLe
    rw [if_pos rfl, ha, hb]
    simp
  · intro files q t o k
    unfold filter_sort_files
    refine pysort_filter_ties _ (fileKeyLe_trans _) (fileKeyLe_total _) _ ?_ _ _
    intro a b ha hb
    simp only [decide_eq_true_eq] at ha hb
    unfold fileKeyLe
    rw [if_neg (by decide), if_pos rfl, ha, hb]
    simp
  · intro pn d
    by_cases hp : d.permDenied = true
    · unfold Utils.list_dir
      rw [if_pos hp]
      exact List.Pairwise.nil
    · unfold Utils.list_dir
      rw [if_neg hp]
      refine List.pairwise_filterMap.mpr ?_
      have hs : (d.entries.mergeSort entLe).Pairwise (fun a b => entLe a b = true) :=
        List.sorted_mergeSort
          (fun a b c => lexLe_trans (lowerChars a.name) (lowerChars b.name) (lowerChars c.name))
          (fun a b => lexLe_total (lowerChars a.name) (lowerChars b.name))
          d.entries
    
      refine hs.imp ?_
      intro a b hab x hx y hy
      rw [fileOf_name hx, fileOf_name hy]
      exact hab

/-! ### Decimal rendering: `natStr` is injective -/

theorem foldl_digits (ds : List Nat) (hd : ∀ d ∈ ds, d < 10) (a : Nat) :
    List.foldl (fun x c => 10 * x + (c.toNat - 48)) a
      ((ds.map (fun d => Char.ofNat (48 + d))).reverse)
      = a * 10 ^ ds.length + Nat.ofDigits 10 ds := by
  induction ds generalizing a with
  | nil => simp [Nat.ofDigits_nil]
  | cons d ds ih =>
    rw [List.map_cons, List.reverse_cons, List.foldl_append]
    rw [ih (fun x hx => hd x (List.mem_cons_of_mem _ hx))]
    simp only [List.foldl_cons, List.foldl_nil]
    have hc : (Char.ofNat (48 + d)).toNat - 48 = d := by
      have hdd : d < 10 := hd d (List.mem_cons_self _ _)
      interval_cases d <;> decide
    rw [hc, Nat.ofDigits_cons]
    simp only [List.length_cons, pow_succ]
    ring

theorem strVal_natStr (n : Nat) : strVal (natStr n) = n := by
  unfold natStr
  by_cases h0 : n = 0
  · rw [if_pos h0, h0]; decide
  · rw [if_neg h0]
    unfold strVal
    rw [show (String.mk ((Nat.digits 10 n).map (fun d => Char.ofNat (48 + d))).reverse).data
        = ((Nat.digits 10 n).map (fun d => Char.ofNat (48 + d))).reverse from rfl]
    rw [foldl_digits _ (fun d hd => Nat.digits_lt_base (by norm_num) hd) 0]
    simp [Nat.ofDigits_digits]

theorem natStr_inj {m n : Nat} (h : natStr m = natStr n) : m = n := by
  have h2 := congrArg strVal h
  rwa [strVal_natStr, strVal_natStr] at h2

theorem candName_inj (stem suffix : String) {i j : Nat}
    (h : candName stem suffix i = candName stem suffix j) : i = j := by
  apply natStr_inj
  have hd := congrArg String.data h
  simp only [candName, strData_append, List.append_assoc] at hd
  have h1 := List.append_cancel_left hd
  have h2 := List.append_cancel_left h1
  have h3 := List.append_cancel_right h2
  exact strExt h3

/-! ### The collision loop terminates with a fresh numeric-suffix name -/

theorem existsP_mem {fs : FS} {p : SPath} (h : fs.existsP p = true) :
    p ∈ fs.allPaths := by
  unfold FS.existsP FS.isFile at h
  unfold FS.allPaths
  rcases Bool.or_eq_true_iff.mp h with h1 | h1
  · obtain ⟨e, he, hp⟩ := List.any_eq_true.mp h1
    exact List.mem_append_left _ (List.mem_map.mpr ⟨e, he, of_decide_eq_true hp⟩)
  · obtain ⟨d, hd, hp⟩ := List.any_eq_true.mp h1
    rw [← of_decide_eq_true hp]
    exact List.mem_append_right _ hd

theorem exists_free (fs : FS) (parent : SPath) (stem suffix : String) :
    ∃ j, 1 ≤ j ∧ j ≤ fs.allPaths.length + 1
      ∧ fs.existsP (parent ++ [candName stem suffix j]) = false := by
  by_contra hc
  push_neg at hc
  have hall : ∀ j, 1 ≤ j → j ≤ fs.allPaths.length + 1 →
      (parent ++ [candName stem suffix j]) ∈ fs.allPaths := by
    intro j h1 h2
    exact existsP_mem (Bool.not_eq_false _ |>.mp (hc j h1 h2))
  have hinj : Function.Injective (fun j : Nat => parent ++ [candName stem suffix j]) := by
    intro i j hij
    simp only [List.append_cancel_left_eq, List.cons.injEq, and_true] at hij
    exact candName_inj stem suffix hij
  have hsub : (Finset.Icc 1 (fs.allPaths.length + 1)).image
      (fun j => parent ++ [candName stem suffix j]) ⊆ fs.allPaths.toFinset := by
    intro x hx
    obtain ⟨j, hj, rfl⟩ := Finset.mem_image.mp hx
    rw [List.mem_toFinset]
    exact hall j (Finset.mem_Icc.mp hj).1 (Finset.mem_Icc.mp hj).2
  have hcard := Finset.card_le_card hsub
  rw [Finset.card_image_of_injective _ hinj, Nat.card_Icc] at hcard
  have hlen := fs.allPaths.toFinset_card_le
  omega

theorem findFree_spec (taken : SPath → Bool) (parent : SPath) (stem suffix : String) :
    ∀ fuel start,
      (∃ j, start ≤ j ∧ j < start + fuel
        ∧ taken (parent ++ [candName stem suffix j]) = false) →
      ∃ k, 1 ≤ start → 1 ≤ k
        ∧ findFree taken parent stem suffix fuel start
            = some (parent ++ [candName stem suffix k])
        ∧ taken (parent ++ [candName stem suffix k]) = false := by
  intro fuel
  induction fuel with
  | zero =>
    intro start hex
    obtain ⟨j, h1, h2, _⟩ := hex
    omega
  | succ fuel ih =>
    intro start hex
    by_cases ht : taken (parent ++ [candName stem suffix start]) = true
    · obtain ⟨j, h1, h2, h3⟩ := hex
      have hjs : j ≠ start := by
        intro he
        rw [he, ht] at h3
        exact Bool.noConfusion h3
      obtain ⟨k, hk⟩ := ih (start + 1) ⟨j, by omega, by omega, h3⟩
      refine ⟨k, fun hst => ?_⟩
      obtain ⟨hk1, hk2, hk3⟩ := hk (by omega)
      exact ⟨by omega, by simp only [findFree, if_pos ht]; exact hk2, hk3⟩
    · have ht' : taken (parent ++ [candName stem suffix start]) = false :=
        Bool.not_eq_true _ |>.mp ht
      refine ⟨start, fun hst => ⟨hst, ?_, ht'⟩⟩
      simp only [findFree, if_neg ht]

/-! ### Approve: rename effect and no-dot resolution -/

theorem resolveFrom_no_dots (rel : List String) :
    ∀ base, (∀ s ∈ rel, s ≠ ".." ∧ s ≠ ".") → resolveFrom base rel = base ++ rel := by
  induction rel with
  | nil => intro base _; simp [resolveFrom]
  | cons s rest ih =>
    intro base hs
    have h1 := hs s (List.mem_cons_self _ _)
    have h2 := ih (base ++ [s]) (fun x hx => hs x (List.mem_cons_of_mem _ hx))
    simp only [resolveFrom, List.foldl_cons] at h2 ⊢
    rw [if_neg h1.1, if_neg h1.2, h2]
    simp

theorem existsP_with_dirs (fs : FS) (X : List SPath) (p : SPath) :
    (FS.mk fs.files (fs.dirs ++ X)).existsP p
      = (fs.existsP p || X.any (fun d => d = p)) := by
  simp [FS.existsP, FS.isFile, List.any_append, Bool.or_assoc]

theorem isFile_with_dirs (fs : FS) (X : List SPath) (p : SPath) :
    (FS.mk fs.files (fs.dirs ++ X)).isFile p = fs.isFile p := rfl

theorem rename_move (fs : FS) (src dest : SPath)
    (hsrc : fs.isFile src = true) (hfresh : fs.existsP dest = false) :
    (fs.rename src dest).files
        = fs.files.map (fun e => if e.1 = src then (dest, e.2) else e)
    ∧ (fs.rename src dest).dirs = fs.dirs := by
  have hnof : fs.isFile dest = false := by
    unfold FS.existsP at hfresh
    exact (Bool.or_eq_false_iff.mp hfresh).1
  unfold FS.rename
  rw [if_pos hsrc]
  refine ⟨?_, rfl⟩
  dsimp only
  congr 1
  apply List.filter_eq_self.mpr
  intro e he
  apply decide_eq_true
  intro hc
  unfold FS.isFile at hnof
  have h2 := List.any_eq_false.mp hnof e he
  simp [hc] at h2

/-! ### Claim C6: approve moves by one rename, with collision suffixing, and
a vanished pending path is a silent no-op -/

/-- Claim C6: for a staged pending-relative path (dot-free segments), if the
path no longer exists under the pending root then `approve_file` is a silent
no-op returning the unchanged state (hence a second approve of an
already-moved path is a no-op); if it still exists as a file, `approve_file`
succeeds and performs exactly one rename: there is a destination — either the
same relative position under the content root, or that name with the
numeric-suffix scheme `stem_k.suffix` when the position is occupied — that
was free beforehand, every file entry at the source moves there with its
content, the source file is gone, no other file entry changes, and all
intermediate folders of the destination exist afterwards. -/
theorem claim_C6 (fs : FS) (pr cr : SPath) (rel : List String)
    (hseg : ∀ s ∈ rel, s ≠ ".." ∧ s ≠ ".") :
    (fs.existsP (pr ++ rel) = false → approve_file fs pr cr rel = .ok fs)
    ∧ (fs.isFile (pr ++ rel) = true →
        ∃ fs' dest,
          approve_file fs pr cr rel = .ok fs'
          ∧ (dest = cr ++ rel
              ∨ ∃ k, 1 ≤ k ∧ dest = (cr ++ rel).dropLast
                  ++ [candName (pyStem ((cr ++ rel).getLastD ""))
                        (pySuffix ((cr ++ rel).getLastD "")) k])
          ∧ fs.existsP dest = false
          ∧ fs'.files = fs.files.map (fun e => if e.1 = pr ++ rel then (dest, e.2) else e)
          ∧ fs'.isFile (pr ++ rel) = false
          ∧ (∀ i < (cr ++ rel).length, (cr ++ rel).take i ∈ fs'.dirs)) := by
  have hres : resolveFrom pr rel = pr ++ rel := resolveFrom_no_dots rel pr hseg
  constructor
  · intro hnex
    simp only [approve_file, hres, hnex]
    simp
  · intro hfile
    have hex : fs.existsP (pr ++ rel) = true := by
      unfold FS.existsP
      rw [hfile]
      rfl
    have hpre : pr.isPrefixOf (pr ++ rel) = true := by
      rw [List.isPrefixOf_iff_prefix]
      exact List.prefix_append _ _
    simp only [approve_file, hres, hex]
    rw [if_neg (by simp), if_pos hpre]
    simp only [List.drop_left]
    set X := (List.range (cr ++ rel).length).map (fun i => (cr ++ rel).take i) with hX
    set fs1 : FS := FS.mk fs.files (fs.dirs ++ X) with hfs1
    have hfile1 : fs1.isFile (pr ++ rel) = true := hfile
    have hdirs_mem : ∀ i < (cr ++ rel).length, (cr ++ rel).take i ∈ fs.dirs ++ X := by
      intro i hi
      exact List.mem_append_right _ (List.mem_map.mpr ⟨i, List.mem_range.mpr hi, rfl⟩)
    have hfresh_down : ∀ p, fs1.existsP p = false → fs.existsP p = false := by
      intro p hp
      rw [hfs1, existsP_with_dirs] at hp
      exact (Bool.or_eq_false_iff.mp hp).1
    by_cases h1 : fs1.existsP (cr ++ rel) = false
    · rw [if_pos h1]
      obtain ⟨hf, hd⟩ := rename_move fs1 (pr ++ rel) (cr ++ rel) hfile1 h1
      refine ⟨fs1.rename (pr ++ rel) (cr ++ rel), cr ++ rel, rfl, Or.inl rfl,
        hfresh_down _ h1, ?_, ?_, ?_⟩
      · exact hf
      · have hne : cr ++ rel ≠ pr ++ rel := by
          intro he
          rw [← he] at hex
          rw [hfresh_down _ h1] at hex
          exact Bool.noConfusion hex
        unfold FS.isFile
        rw [hf]
        apply List.any_eq_false.mpr
        intro e he
        obtain ⟨e0, he0, heq⟩ := List.mem_map.mp he
        by_cases hsrc : e0.1 = pr ++ rel
        · rw [if_pos hsrc] at heq
          rw [← heq]
          simp [hne]
        · rw [if_neg hsrc] at heq
          rw [← heq]
          simp [hsrc]
      · intro i hi
        rw [hd]
        exact hdirs_mem i hi
    · rw [if_neg h1]
      obtain ⟨j, hj1, hj2, hj3⟩ :=
        exists_free fs1 (cr ++ rel).dropLast (pyStem ((cr ++ rel).getLastD ""))
          (pySuffix ((cr ++ rel).getLastD ""))
      obtain ⟨k, hk⟩ :=
        findFree_spec fs1.existsP (cr ++ rel).dropLast
          (pyStem ((cr ++ rel).getLastD "")) (pySuffix ((cr ++ rel).getLastD ""))
          (fs1.allPaths.length + 1) 1 ⟨j, by omega, by omega, hj3⟩
      obtain ⟨hk1, hk2, hk3⟩ := hk (by omega)
      rw [hk2]
      set dest := (cr ++ rel).dropLast
        ++ [candName (pyStem ((cr ++ rel).getLastD "")) (pySuffix ((cr ++ rel).getLastD "")) k]
        with hdest
      obtain ⟨hf, hd⟩ := rename_move fs1 (pr ++ rel) dest hfile1 hk3
      refine ⟨fs1.rename (pr ++ rel) dest, dest, rfl, Or.inr ⟨k, hk1, rfl⟩,
        hfresh_down _ hk3, ?_, ?_, ?_⟩
      · exact hf
      · have hne : dest ≠ pr ++ rel := by
          intro he
          rw [← he] at hex
          rw [hfresh_down _ hk3] at hex
          exact Bool.noConfusion hex
        unfold FS.isFile
        rw [hf]
        apply List.any_eq_false.mpr
        intro e he
        obtain ⟨e0, he0, heq⟩ := List.mem_map.mp he
        by_cases hsrc : e0.1 = pr ++ rel
        · rw [if_pos hsrc] at heq
          rw [← heq]
          simp [hne]
        · rw [if_neg hsrc] at heq
          rw [← heq]
          simp [hsrc]
      · intro i hi
        rw [hd]
        exact hdirs_mem i hi

/-- Witness for C6: a staged file `m/a.txt` under the pending root `r/_p` is
approved into `r/m/a.txt`, and approving a non-existent staged path is a
no-op. -/
theorem claim_C6_witness :
    ((FS.mk [(["r", "_p", "m", "a.txt"], 5)] [["r"], ["r", "_p"]]).isFile
        (["r", "_p"] ++ ["m", "a.txt"]) = true
      ∧ ∃ fs' dest,
          approve_file (FS.mk [(["r", "_p", "m", "a.txt"], 5)] [["r"], ["r", "_p"]])
              ["r", "_p"] ["r"] ["m", "a.txt"] = .ok fs'
          ∧ (dest = ["r"] ++ ["m", "a.txt"]
              ∨ ∃ k, 1 ≤ k ∧ dest = (["r"] ++ ["m", "a.txt"]).dropLast
                  ++ [candName (pyStem ((["r"] ++ ["m", "a.txt"]).getLastD ""))
                        (pySuffix ((["r"] ++ ["m", "a.txt"]).getLastD "")) k])
          ∧ (FS.mk [(["r", "_p", "m", "a.txt"], 5)] [["r"], ["r", "_p"]]).existsP dest = false
          ∧ fs'.files = (FS.mk [(["r", "_p", "m", "a.txt"], 5)] [["r"], ["r", "_p"]]).files.map
              (fun e => if e.1 = ["r", "_p"] ++ ["m", "a.txt"] then (dest, e.2) else e)
          ∧ fs'.isFile (["r", "_p"] ++ ["m", "a.txt"]) = false
          ∧ (∀ i < (["r"] ++ ["m", "a.txt"]).length,
              (["r"] ++ ["m", "a.txt"]).take i ∈ fs'.dirs))
    ∧ ((FS.mk [] []).existsP (["r", "_p"] ++ ["gone.txt"]) = false
      ∧ approve_file (FS.mk [] []) ["r", "_p"] ["r"] ["gone.txt"] = .ok (FS.mk [] [])) :=
  ⟨⟨by decide,
    (claim_C6 (FS.mk [(["r", "_p", "m", "a.txt"], 5)] [["r"], ["r", "_p"]])
        ["r", "_p"] ["r"] ["m", "a.txt"] (by decide)).2 (by decide)⟩,
   ⟨by decide,
    (claim_C6 (FS.mk [] []) ["r", "_p"] ["r"] ["gone.txt"] (by decide)).1 (by decide)⟩⟩
